import Mathlib

/-!
Shallow embedding of `src/spead2/recv/trollius.py`: the trollius `Stream`
bridge that turns a readiness-notified heap source into an asynchronous
`get` coroutine backed by a FIFO queue of waiter futures.

Heaps, error causes and event loops are opaque to the bridge, so we model
them as natural numbers.  Trollius futures are single-assignment cells:
`set_result` / `set_exception` on an already-settled (done) future raises
`InvalidStateError`; we model that raise as a `raised` flag that aborts the
rest of the callback, exactly as an uncaught exception would in Python.
-/

namespace Spead2

/-- Outcome of one non-blocking `self.get_nowait()` call on the underlying
stream: a heap, nothing available yet (`spead2.Empty`), or terminally stopped
(`spead2.Stopped` with a cause). -/
inductive SourceResult where
  | heap (h : Nat)
  | empty
  | stopped (e : Nat)
deriving DecidableEq

/-- Settlement state of a trollius future used as a waiter. -/
inductive WaiterStatus where
  | pending
  | heapResult (h : Nat)
  | errorResult (e : Nat)
  | cancelled
deriving DecidableEq

/-- One waiter: the `trollius.Future(loop=loop)` created by `get`, tagged with
a creation-order id and the event loop it was created on. -/
structure Waiter where
  id : Nat
  loop : Nat
  status : WaiterStatus
deriving DecidableEq

/-- `Future.done()`: true in any settled state (result, exception, cancelled). -/
def Waiter.done (w : Waiter) : Bool :=
  match w.status with
  | .pending => false
  | _ => true

/-- Observable side effects of the bridge: reader registration calls on an
event loop, `get_nowait` calls (`take`), future creation, and future
settlement calls. -/
inductive Event where
  | addReader (loop : Nat)
  | removeReader (loop : Nat)
  | take
  | futureCreated (wid loop : Nat)
  | setResult (wid h : Nat)
  | setException (wid e : Nat)
deriving DecidableEq

/-- The mutable state of a `spead2.recv.trollius.Stream` instance:
the construction-time loop `self._loop`, the deque `self._waiters`,
the flag `self._listening`, plus a fresh-id counter for waiter ids. -/
structure RecvStream where
  constructionLoop : Nat
  waiters : List Waiter
  listening : Bool
  nextId : Nat
deriving DecidableEq

/-- `__init__`: store the loop, start with no waiters and not listening. -/
def init (cl : Nat) : RecvStream :=
  ⟨cl, [], false, 0⟩

/-- `_start_listening`: if not listening, `self._loop.add_reader(self.fd, ...)`
and set the flag. -/
def start_listening (s : RecvStream) : RecvStream × List Event :=
  if s.listening then (s, [])
  else ({ s with listening := true }, [.addReader s.constructionLoop])

/-- `_stop_listening`: if listening, `self._loop.remove_reader(self.fd)` and
clear the flag. -/
def stop_listening (s : RecvStream) : RecvStream × List Event :=
  if s.listening then ({ s with listening := false }, [.removeReader s.constructionLoop])
  else (s, [])

/-- The loop `while self._waiters and self._waiters[0].done(): popleft()`. -/
def clearLoop : List Waiter → List Waiter
  | [] => []
  | w :: ws => if w.done then clearLoop ws else w :: ws

/-- `_clear_done_waiters`: pop settled waiters off the front, then stop
listening if the queue is now empty. -/
def clear_done_waiters (s : RecvStream) : RecvStream × List Event :=
  let ws := clearLoop s.waiters
  let s1 : RecvStream := { s with waiters := ws }
  if ws.isEmpty then stop_listening s1 else (s1, [])

/-- The loop `for waiter in self._waiters: waiter.set_exception(e)`.
Returns the waiter list as left by the loop, the settlement events, and
whether `set_exception` raised `InvalidStateError` (it does on any future
that is already done); on a raise the remaining waiters are untouched. -/
def setExceptionAll (e : Nat) : List Waiter → List Waiter × List Event × Bool
  | [] => ([], [], false)
  | w :: ws =>
    if w.done then (w :: ws, [], true)
    else
      let r := setExceptionAll e ws
      ({ w with status := .errorResult e } :: r.1, .setException w.id e :: r.2.1, r.2.2)

/-- Result of one `_ready_callback` invocation: the new state, the events,
and whether the callback aborted with an uncaught exception. -/
structure CallbackResult where
  state : RecvStream
  events : List Event
  raised : Bool
deriving DecidableEq

/-- Body of `_ready_callback` after `_clear_done_waiters`: if waiters remain,
try one `get_nowait` (`src` is what it would yield) and dispatch on the
outcome. -/
def ready_body (src : SourceResult) (s : RecvStream) : CallbackResult :=
  match s.waiters with
  | [] => ⟨s, [], false⟩
  | w :: rest =>
    match src with
    | .empty => ⟨s, [.take], false⟩
    | .stopped e =>
      let r := setExceptionAll e (w :: rest)
      if r.2.2 then
        ⟨{ s with waiters := r.1 }, .take :: r.2.1, true⟩
      else
        let p := stop_listening { s with waiters := [] }
        ⟨p.1, .take :: r.2.1 ++ p.2, false⟩
    | .heap h =>
      if w.done then
        ⟨s, [.take], true⟩
      else
        let s2 : RecvStream := { s with waiters := rest }
        if rest.isEmpty then
          let p := stop_listening s2
          ⟨p.1, .take :: .setResult w.id h :: p.2, false⟩
        else
          ⟨s2, [.take, .setResult w.id h], false⟩

/-- `_ready_callback`: purge settled waiters, then run the dispatch body. -/
def ready_callback (src : SourceResult) (s : RecvStream) : CallbackResult :=
  let p := clear_done_waiters s
  let r := ready_body src p.1
  ⟨r.state, p.2 ++ r.events, r.raised⟩

/-- How a call to the `get` coroutine settles: an immediate return of a heap,
suspension on a freshly created waiter, or an uncaught `spead2.Stopped`
escaping the fast path. -/
inductive GetResult where
  | ret (h : Nat)
  | suspended (wid : Nat)
  | raisedStopped (e : Nat)
deriving DecidableEq

/-- Result of one `get` call up to its suspension point. -/
structure GetOutcome where
  state : RecvStream
  events : List Event
  result : GetResult
deriving DecidableEq

/-- Tail of `get`: create the future on the requested loop (defaulting to the
construction loop), append it to the queue, and start listening. -/
def enqueue (loopArg : Option Nat) (s : RecvStream) (evs : List Event) : GetOutcome :=
  let lp := loopArg.getD s.constructionLoop
  let w : Waiter := ⟨s.nextId, lp, .pending⟩
  let s2 : RecvStream := { s with waiters := s.waiters ++ [w], nextId := s.nextId + 1 }
  let p := start_listening s2
  ⟨p.1, evs ++ .futureCreated w.id lp :: p.2, .suspended w.id⟩

/-- `get(loop=None)`: purge settled waiters; if the queue is empty, try one
non-blocking `get_nowait` (`src` is its outcome) — a heap returns directly,
`Stopped` escapes uncaught, `Empty` falls through; otherwise enqueue a new
waiter and suspend on it. -/
def get (loopArg : Option Nat) (src : SourceResult) (s : RecvStream) : GetOutcome :=
  let p := clear_done_waiters s
  if p.1.waiters.isEmpty then
    match src with
    | .heap h => ⟨p.1, p.2 ++ [.take], .ret h⟩
    | .stopped e => ⟨p.1, p.2 ++ [.take], .raisedStopped e⟩
    | .empty => enqueue loopArg p.1 (p.2 ++ [.take])
  else
    enqueue loopArg p.1 p.2

/-- External consumer-side cancellation of a pending waiter: `Future.cancel()`
settles a pending future as cancelled and is a no-op on a settled one. -/
def cancel (wid : Nat) (s : RecvStream) : RecvStream :=
  { s with
    waiters := s.waiters.map fun w =>
      if w.id = wid ∧ w.status = .pending then { w with status := .cancelled } else w }

/-- One step of the bridge as driven by its environment: a `get` call, a
readiness callback, or an external cancellation. -/
inductive Op where
  | opGet (loopArg : Option Nat) (src : SourceResult)
  | opReady (src : SourceResult)
  | opCancel (wid : Nat)
deriving DecidableEq

/-- Apply one operation to the state and collect its events. -/
def step (s : RecvStream) : Op → RecvStream × List Event
  | .opGet l src => let g := get l src s; (g.state, g.events)
  | .opReady src => let r := ready_callback src s; (r.state, r.events)
  | .opCancel wid => (cancel wid s, [])

/-- Run a sequence of operations from a state, concatenating all events. -/
def run (s : RecvStream) : List Op → RecvStream × List Event
  | [] => (s, [])
  | op :: ops =>
    let p := step s op
    let q := run p.1 ops
    (q.1, p.2 ++ q.2)

/-- Ids of a waiter list, in queue order. -/
def wids (ws : List Waiter) : List Nat :=
  ws.map Waiter.id

/-- Waiter ids fulfilled with a heap (`set_result` calls), in order. -/
def deliveredIds (evs : List Event) : List Nat :=
  evs.filterMap fun e =>
    match e with
    | .setResult wid _ => some wid
    | _ => none

/-- Waiter ids that received `set_exception`, in order. -/
def exceptionIds (evs : List Event) : List Nat :=
  evs.filterMap fun e =>
    match e with
    | .setException wid _ => some wid
    | _ => none

/-- Count of `add_reader` registrations among the events. -/
def countAdd (evs : List Event) : Nat :=
  (evs.filter fun e => match e with | .addReader _ => true | _ => false).length

/-- Count of `remove_reader` unregistrations among the events. -/
def countRemove (evs : List Event) : Nat :=
  (evs.filter fun e => match e with | .removeReader _ => true | _ => false).length

/-- Count of `get_nowait` calls among the events. -/
def countTake (evs : List Event) : Nat :=
  (evs.filter fun e => match e with | .take => true | _ => false).length

/-- Count of `set_result` calls among the events. -/
def countSetResult (evs : List Event) : Nat :=
  (evs.filter fun e => match e with | .setResult _ _ => true | _ => false).length

/-- Count of `set_exception` calls among the events. -/
def countSetException (evs : List Event) : Nat :=
  (evs.filter fun e => match e with | .setException _ _ => true | _ => false).length

/-- Count of futures created among the events. -/
def countFutureCreated (evs : List Event) : Nat :=
  (evs.filter fun e => match e with | .futureCreated _ _ => true | _ => false).length

/-- The listening flag as a 0/1 registration count. -/
def listenBit (s : RecvStream) : Nat :=
  if s.listening then 1 else 0

/-- The bridge invariant relating the listening flag to the queue: the
callback is registered exactly while the waiter deque is non-empty. -/
def GoodState (s : RecvStream) : Prop :=
  s.listening = !s.waiters.isEmpty

/-- Structural invariant on waiter ids: queue ids strictly increase in queue
order (FIFO arrival order) and are all below the fresh-id counter. -/
def StreamInv (s : RecvStream) : Prop :=
  (wids s.waiters).Pairwise (· < ·) ∧ ∀ i ∈ wids s.waiters, i < s.nextId

/-- Trace invariant: the stream invariant, plus the ids already delivered a
heap (`ds`) strictly increase, lie below the counter, and precede every id
still queued. -/
def TraceInv (s : RecvStream) (ds : List Nat) : Prop :=
  StreamInv s ∧ ds.Pairwise (· < ·) ∧ (∀ d ∈ ds, d < s.nextId) ∧
    ∀ d ∈ ds, ∀ i ∈ wids s.waiters, d < i

/- ### Lemmas about the purge loop -/

theorem clearLoop_sublist (ws : List Waiter) : List.Sublist (clearLoop ws) ws := by
  induction ws with
  | nil => simp [clearLoop]
  | cons w ws ih =>
    by_cases h : w.done
    · simpa [clearLoop, h] using ih.trans (List.sublist_cons_self w ws)
    · simp [clearLoop, h]

theorem mem_of_mem_clearLoop {w : Waiter} {ws : List Waiter}
    (h : w ∈ clearLoop ws) : w ∈ ws :=
  (clearLoop_sublist ws).subset h

theorem clearLoop_head_not_done {w : Waiter} {rest ws : List Waiter}
    (h : clearLoop ws = w :: rest) : w.done = false := by
  induction ws with
  | nil => simp [clearLoop] at h
  | cons a as ih =>
    by_cases ha : a.done
    · rw [clearLoop, if_pos ha] at h
      exact ih h
    · rw [clearLoop, if_neg ha] at h
      obtain ⟨rfl, rfl⟩ := List.cons.injEq .. ▸ h
      exact Bool.eq_false_iff.mpr ha

theorem clearLoop_eq_nil_of_all_done {ws : List Waiter}
    (h : ∀ w ∈ ws, w.done = true) : clearLoop ws = [] := by
  induction ws with
  | nil => rfl
  | cons a as ih =>
    rw [clearLoop, if_pos (h a (List.mem_cons_self a as))]
    exact ih fun w hw => h w (List.mem_cons_of_mem a hw)

theorem clearLoop_decomp (ws : List Waiter) :
    ws = ws.takeWhile Waiter.done ++ clearLoop ws := by
  induction ws with
  | nil => rfl
  | cons a as ih =>
    by_cases ha : a.done
    · rw [clearLoop, if_pos ha, List.takeWhile_cons_of_pos ha, List.cons_append]
      exact congrArg (a :: ·) ih
    · rw [clearLoop, if_neg ha, List.takeWhile_cons_of_neg ha, List.nil_append]

theorem clearLoop_idem (ws : List Waiter) :
    clearLoop (clearLoop ws) = clearLoop ws := by
  induction ws with
  | nil => rfl
  | cons a as ih =>
    by_cases ha : a.done
    · rw [clearLoop, if_pos ha, ih]
    · rw [clearLoop, if_neg ha, clearLoop, if_neg ha]

theorem ne_nil_of_clearLoop_ne_nil {ws : List Waiter}
    (h : clearLoop ws ≠ []) : ws ≠ [] := by
  intro hnil
  subst hnil
  exact h rfl

/- ### Projection lemmas for the listener toggle and the purge -/

@[simp] theorem start_listening_waiters (s : RecvStream) :
    (start_listening s).1.waiters = s.waiters := by
  unfold start_listening
  split <;> rfl

@[simp] theorem start_listening_nextId (s : RecvStream) :
    (start_listening s).1.nextId = s.nextId := by
  unfold start_listening
  split <;> rfl

@[simp] theorem start_listening_constructionLoop (s : RecvStream) :
    (start_listening s).1.constructionLoop = s.constructionLoop := by
  unfold start_listening
  split <;> rfl

@[simp] theorem start_listening_listening (s : RecvStream) :
    (start_listening s).1.listening = true := by
  unfold start_listening
  split <;> simp_all

@[simp] theorem stop_listening_waiters (s : RecvStream) :
    (stop_listening s).1.waiters = s.waiters := by
  unfold stop_listening
  split <;> rfl

@[simp] theorem stop_listening_nextId (s : RecvStream) :
    (stop_listening s).1.nextId = s.nextId := by
  unfold stop_listening
  split <;> rfl

@[simp] theorem stop_listening_constructionLoop (s : RecvStream) :
    (stop_listening s).1.constructionLoop = s.constructionLoop := by
  unfold stop_listening
  split <;> rfl

@[simp] theorem stop_listening_listening (s : RecvStream) :
    (stop_listening s).1.listening = false := by
  unfold stop_listening
  split <;> simp_all

theorem start_listening_events (s : RecvStream) :
    (start_listening s).2 = [] ∨
      (start_listening s).2 = [Event.addReader s.constructionLoop] := by
  unfold start_listening
  split
  · exact Or.inl rfl
  · exact Or.inr rfl

theorem stop_listening_events (s : RecvStream) :
    (stop_listening s).2 = [] ∨
      (stop_listening s).2 = [Event.removeReader s.constructionLoop] := by
  unfold stop_listening
  split
  · exact Or.inr rfl
  · exact Or.inl rfl

@[simp] theorem clear_done_waiters_waiters (s : RecvStream) :
    (clear_done_waiters s).1.waiters = clearLoop s.waiters := by
  unfold clear_done_waiters
  dsimp only
  split <;> simp

@[simp] theorem clear_done_waiters_nextId (s : RecvStream) :
    (clear_done_waiters s).1.nextId = s.nextId := by
  unfold clear_done_waiters
  dsimp only
  split <;> simp

@[simp] theorem clear_done_waiters_constructionLoop (s : RecvStream) :
    (clear_done_waiters s).1.constructionLoop = s.constructionLoop := by
  unfold clear_done_waiters
  dsimp only
  split <;> simp

theorem clear_done_waiters_events (s : RecvStream) :
    (clear_done_waiters s).2 = [] ∨
      (clear_done_waiters s).2 = [Event.removeReader s.constructionLoop] := by
  unfold clear_done_waiters
  dsimp only
  split
  · simpa using stop_listening_events _
  · exact Or.inl rfl

theorem clear_done_waiters_listening_of_ne_nil (s : RecvStream)
    (h : clearLoop s.waiters ≠ []) :
    (clear_done_waiters s).1.listening = s.listening := by
  unfold clear_done_waiters
  dsimp only
  rw [if_neg (by simpa [List.isEmpty_iff] using h)]

theorem clear_done_waiters_listening_of_nil (s : RecvStream)
    (h : clearLoop s.waiters = []) :
    (clear_done_waiters s).1.listening = false := by
  unfold clear_done_waiters
  dsimp only
  rw [if_pos (by simpa [List.isEmpty_iff] using h)]
  simp

/- ### Lemmas about the stop fan-out loop -/

theorem wids_setExceptionAll (e : Nat) (ws : List Waiter) :
    wids (setExceptionAll e ws).1 = wids ws := by
  induction ws with
  | nil => rfl
  | cons w ws ih =>
    by_cases h : w.done
    · simp [setExceptionAll, h]
    · simp [setExceptionAll, h, wids] at ih ⊢
      exact ih

theorem setExceptionAll_ne_nil (e : Nat) (w : Waiter) (ws : List Waiter) :
    (setExceptionAll e (w :: ws)).1 ≠ [] := by
  by_cases h : w.done <;> simp [setExceptionAll, h]

theorem setExceptionAll_all_live (e : Nat) :
    ∀ ws : List Waiter, (∀ w ∈ ws, w.done = false) →
      setExceptionAll e ws =
        (ws.map fun w => { w with status := .errorResult e },
         ws.map fun w => .setException w.id e, false)
  | [], _ => rfl
  | w :: ws, h => by
    rw [setExceptionAll, if_neg (by simp [h w (List.mem_cons_self w ws)]),
      setExceptionAll_all_live e ws fun w hw => h w (List.mem_cons_of_mem _ hw)]
    simp

/- ### Lemmas about cancellation -/

@[simp] theorem cancel_wids (wid : Nat) (s : RecvStream) :
    wids (cancel wid s).waiters = wids s.waiters := by
  simp only [cancel, wids, List.map_map]
  refine List.map_congr_left ?_
  intro w _
  by_cases h : w.id = wid ∧ w.status = .pending <;> simp [Function.comp, h]

@[simp] theorem cancel_listening (wid : Nat) (s : RecvStream) :
    (cancel wid s).listening = s.listening := rfl

@[simp] theorem cancel_nextId (wid : Nat) (s : RecvStream) :
    (cancel wid s).nextId = s.nextId := rfl

@[simp] theorem cancel_isEmpty (wid : Nat) (s : RecvStream) :
    (cancel wid s).waiters.isEmpty = s.waiters.isEmpty := by
  cases h : s.waiters <;> simp [cancel, h]

/- ### Event-count bookkeeping -/

@[simp] theorem countAdd_append (a b : List Event) :
    countAdd (a ++ b) = countAdd a + countAdd b := by
  simp [countAdd]

@[simp] theorem countRemove_append (a b : List Event) :
    countRemove (a ++ b) = countRemove a + countRemove b := by
  simp [countRemove]

@[simp] theorem countTake_append (a b : List Event) :
    countTake (a ++ b) = countTake a + countTake b := by
  simp [countTake]

@[simp] theorem countSetResult_append (a b : List Event) :
    countSetResult (a ++ b) = countSetResult a + countSetResult b := by
  simp [countSetResult]

@[simp] theorem countSetException_append (a b : List Event) :
    countSetException (a ++ b) = countSetException a + countSetException b := by
  simp [countSetException]

@[simp] theorem countFutureCreated_append (a b : List Event) :
    countFutureCreated (a ++ b) = countFutureCreated a + countFutureCreated b := by
  simp [countFutureCreated]

@[simp] theorem deliveredIds_append (a b : List Event) :
    deliveredIds (a ++ b) = deliveredIds a ++ deliveredIds b := by
  simp [deliveredIds]

@[simp] theorem exceptionIds_append (a b : List Event) :
    exceptionIds (a ++ b) = exceptionIds a ++ exceptionIds b := by
  simp [exceptionIds]

theorem reg_start (s : RecvStream) :
    countAdd (start_listening s).2 + listenBit s = listenBit (start_listening s).1 ∧
      countRemove (start_listening s).2 = 0 := by
  unfold start_listening listenBit
  by_cases h : s.listening <;> simp [h, countAdd, countRemove]

theorem reg_stop (s : RecvStream) :
    countRemove (stop_listening s).2 + listenBit (stop_listening s).1 = listenBit s ∧
      countAdd (stop_listening s).2 = 0 := by
  unfold stop_listening listenBit
  by_cases h : s.listening <;> simp [h, countAdd, countRemove]

theorem reg_clear (s : RecvStream) :
    countRemove (clear_done_waiters s).2 + listenBit (clear_done_waiters s).1 = listenBit s ∧
      countAdd (clear_done_waiters s).2 = 0 := by
  unfold clear_done_waiters
  dsimp only
  split
  · simpa [listenBit] using reg_stop _
  · simp [countAdd, countRemove, listenBit]

/- ### Preservation of the listening-iff-nonempty invariant -/

theorem goodState_init (cl : Nat) : GoodState (init cl) := rfl

theorem goodState_clear {s : RecvStream} (h : GoodState s) :
    GoodState (clear_done_waiters s).1 := by
  unfold GoodState at h ⊢
  by_cases hc : clearLoop s.waiters = []
  · rw [clear_done_waiters_listening_of_nil s hc, clear_done_waiters_waiters, hc]
    rfl
  · rw [clear_done_waiters_listening_of_ne_nil s hc, clear_done_waiters_waiters, h]
    have hw : s.waiters ≠ [] := ne_nil_of_clearLoop_ne_nil hc
    have h1 : (clearLoop s.waiters).isEmpty = false := by
      simpa [List.isEmpty_iff] using hc
    have h2 : s.waiters.isEmpty = false := by
      simpa [List.isEmpty_iff] using hw
    rw [h1, h2]

theorem goodState_enqueue (l : Option Nat) (s : RecvStream) (evs : List Event) :
    GoodState (enqueue l s evs).state := by
  unfold enqueue GoodState
  dsimp only
  simp

theorem goodState_get (l : Option Nat) (src : SourceResult) {s : RecvStream}
    (h : GoodState s) : GoodState (get l src s).state := by
  unfold get
  dsimp only
  split
  · cases src
    · exact goodState_clear h
    · exact goodState_enqueue _ _ _
    · exact goodState_clear h
  · exact goodState_enqueue _ _ _

theorem ready_callback_none (src : SourceResult) (s : RecvStream)
    (h : clearLoop s.waiters = []) :
    ready_callback src s =
      ⟨(clear_done_waiters s).1, (clear_done_waiters s).2, false⟩ := by
  unfold ready_callback ready_body
  simp only [clear_done_waiters_waiters, h]
  simp

theorem ready_callback_empty_eq (s : RecvStream) {w : Waiter} {rest : List Waiter}
    (h : clearLoop s.waiters = w :: rest) :
    ready_callback .empty s =
      ⟨(clear_done_waiters s).1, (clear_done_waiters s).2 ++ [.take], false⟩ := by
  unfold ready_callback ready_body
  simp only [clear_done_waiters_waiters, h]

theorem ready_callback_heap_eq (s : RecvStream) (hp : Nat) {w : Waiter}
    {rest : List Waiter} (h : clearLoop s.waiters = w :: rest) (hr : rest ≠ []) :
    ready_callback (.heap hp) s =
      ⟨{ (clear_done_waiters s).1 with waiters := rest },
       (clear_done_waiters s).2 ++ [.take, .setResult w.id hp], false⟩ := by
  have hnd : w.done = false := clearLoop_head_not_done h
  have hre : rest.isEmpty = false := by simpa [List.isEmpty_iff] using hr
  unfold ready_callback ready_body
  simp only [clear_done_waiters_waiters, h, hnd, hre]
  simp

theorem ready_callback_heap_last_eq (s : RecvStream) (hp : Nat) {w : Waiter}
    (h : clearLoop s.waiters = [w]) :
    ready_callback (.heap hp) s =
      ⟨(stop_listening { (clear_done_waiters s).1 with waiters := [] }).1,
       (clear_done_waiters s).2 ++ .take :: .setResult w.id hp ::
         (stop_listening { (clear_done_waiters s).1 with waiters := [] }).2,
       false⟩ := by
  have hnd : w.done = false := clearLoop_head_not_done h
  unfold ready_callback ready_body
  simp only [clear_done_waiters_waiters, h, hnd]
  simp

theorem ready_callback_stopped_raised_eq (s : RecvStream) (e : Nat) {w : Waiter}
    {rest : List Waiter} (h : clearLoop s.waiters = w :: rest)
    (hr : (setExceptionAll e (w :: rest)).2.2 = true) :
    ready_callback (.stopped e) s =
      ⟨{ (clear_done_waiters s).1 with waiters := (setExceptionAll e (w :: rest)).1 },
       (clear_done_waiters s).2 ++ .take :: (setExceptionAll e (w :: rest)).2.1,
       true⟩ := by
  unfold ready_callback ready_body
  simp only [clear_done_waiters_waiters, h, hr]
  simp

theorem ready_callback_stopped_ok_eq (s : RecvStream) (e : Nat) {w : Waiter}
    {rest : List Waiter} (h : clearLoop s.waiters = w :: rest)
    (hr : (setExceptionAll e (w :: rest)).2.2 = false) :
    ready_callback (.stopped e) s =
      ⟨(stop_listening { (clear_done_waiters s).1 with waiters := [] }).1,
       (clear_done_waiters s).2 ++ .take :: ((setExceptionAll e (w :: rest)).2.1 ++
         (stop_listening { (clear_done_waiters s).1 with waiters := [] }).2),
       false⟩ := by
  unfold ready_callback ready_body
  simp only [clear_done_waiters_waiters, h, hr]
  simp

theorem get_fast_heap_eq (l : Option Nat) (hp : Nat) (s : RecvStream)
    (h : clearLoop s.waiters = []) :
    get l (.heap hp) s =
      ⟨(clear_done_waiters s).1, (clear_done_waiters s).2 ++ [.take], .ret hp⟩ := by
  unfold get
  simp only [clear_done_waiters_waiters, h]
  simp

theorem get_fast_stopped_eq (l : Option Nat) (e : Nat) (s : RecvStream)
    (h : clearLoop s.waiters = []) :
    get l (.stopped e) s =
      ⟨(clear_done_waiters s).1, (clear_done_waiters s).2 ++ [.take],
       .raisedStopped e⟩ := by
  unfold get
  simp only [clear_done_waiters_waiters, h]
  simp

theorem get_fast_empty_eq (l : Option Nat) (s : RecvStream)
    (h : clearLoop s.waiters = []) :
    get l .empty s =
      enqueue l (clear_done_waiters s).1 ((clear_done_waiters s).2 ++ [.take]) := by
  unfold get
  simp only [clear_done_waiters_waiters, h]
  simp

theorem get_busy_eq (l : Option Nat) (src : SourceResult) (s : RecvStream)
    {w : Waiter} {rest : List Waiter} (h : clearLoop s.waiters = w :: rest) :
    get l src s = enqueue l (clear_done_waiters s).1 (clear_done_waiters s).2 := by
  unfold get
  simp only [clear_done_waiters_waiters, h]
  simp

theorem goodState_ready (src : SourceResult) {s : RecvStream} (h : GoodState s) :
    GoodState (ready_callback src s).state := by
  have hgp := goodState_clear h
  rcases hc : clearLoop s.waiters with _ | ⟨w, rest⟩
  · rw [ready_callback_none src s hc]
    exact hgp
  · have hlist : (clear_done_waiters s).1.listening = true := by
      unfold GoodState at hgp
      rw [hgp]
      simp [hc]
    cases src with
    | empty =>
      rw [ready_callback_empty_eq s hc]
      exact hgp
    | heap hp =>
      rcases rest with _ | ⟨w2, rest2⟩
      · rw [ready_callback_heap_last_eq s hp hc]
        unfold GoodState
        simp
      · rw [ready_callback_heap_eq s hp hc (by simp)]
        unfold GoodState
        simp [hlist]
    | stopped e =>
      rcases hra : (setExceptionAll e (w :: rest)).2.2 with _ | _
      · rw [ready_callback_stopped_ok_eq s e hc hra]
        unfold GoodState
        simp
      · rw [ready_callback_stopped_raised_eq s e hc hra]
        unfold GoodState
        have hne := setExceptionAll_ne_nil e w rest
        simp [hlist, List.isEmpty_iff, hne]

theorem enqueue_events (l : Option Nat) (s : RecvStream) (evs : List Event) :
    (enqueue l s evs).events =
      evs ++ .futureCreated s.nextId (l.getD s.constructionLoop) ::
        (start_listening { s with
          waiters := s.waiters ++ [⟨s.nextId, l.getD s.constructionLoop, .pending⟩],
          nextId := s.nextId + 1 }).2 := rfl

theorem enqueue_state (l : Option Nat) (s : RecvStream) (evs : List Event) :
    (enqueue l s evs).state =
      (start_listening { s with
        waiters := s.waiters ++ [⟨s.nextId, l.getD s.constructionLoop, .pending⟩],
        nextId := s.nextId + 1 }).1 := rfl

theorem enqueue_result (l : Option Nat) (s : RecvStream) (evs : List Event) :
    (enqueue l s evs).result = .suspended s.nextId := rfl

theorem start_listening_no_other (s : RecvStream) :
    countRemove (start_listening s).2 = 0 ∧ countTake (start_listening s).2 = 0 ∧
      countSetResult (start_listening s).2 = 0 ∧
      countSetException (start_listening s).2 = 0 ∧
      countFutureCreated (start_listening s).2 = 0 ∧
      deliveredIds (start_listening s).2 = [] ∧
      exceptionIds (start_listening s).2 = [] := by
  rcases start_listening_events s with h | h <;>
    simp [h, countRemove, countTake, countSetResult, countSetException,
      countFutureCreated, deliveredIds, exceptionIds]

theorem stop_listening_no_other (s : RecvStream) :
    countAdd (stop_listening s).2 = 0 ∧ countTake (stop_listening s).2 = 0 ∧
      countSetResult (stop_listening s).2 = 0 ∧
      countSetException (stop_listening s).2 = 0 ∧
      countFutureCreated (stop_listening s).2 = 0 ∧
      deliveredIds (stop_listening s).2 = [] ∧
      exceptionIds (stop_listening s).2 = [] := by
  rcases stop_listening_events s with h | h <;>
    simp [h, countAdd, countTake, countSetResult, countSetException,
      countFutureCreated, deliveredIds, exceptionIds]

theorem clear_no_other (s : RecvStream) :
    countAdd (clear_done_waiters s).2 = 0 ∧ countTake (clear_done_waiters s).2 = 0 ∧
      countSetResult (clear_done_waiters s).2 = 0 ∧
      countSetException (clear_done_waiters s).2 = 0 ∧
      countFutureCreated (clear_done_waiters s).2 = 0 ∧
      deliveredIds (clear_done_waiters s).2 = [] ∧
      exceptionIds (clear_done_waiters s).2 = [] := by
  rcases clear_done_waiters_events s with h | h <;>
    simp [h, countAdd, countTake, countSetResult, countSetException,
      countFutureCreated, deliveredIds, exceptionIds]

theorem setExceptionAll_no_other (e : Nat) (ws : List Waiter) :
    countAdd (setExceptionAll e ws).2.1 = 0 ∧
      countRemove (setExceptionAll e ws).2.1 = 0 ∧
      countTake (setExceptionAll e ws).2.1 = 0 ∧
      countSetResult (setExceptionAll e ws).2.1 = 0 ∧
      countFutureCreated (setExceptionAll e ws).2.1 = 0 ∧
      deliveredIds (setExceptionAll e ws).2.1 = [] := by
  induction ws with
  | nil =>
    simp [setExceptionAll, countAdd, countRemove, countTake, countSetResult,
      countFutureCreated, deliveredIds]
  | cons w ws ih =>
    by_cases h : w.done <;>
      simp_all [setExceptionAll, h, countAdd, countRemove, countTake,
        countSetResult, countFutureCreated, deliveredIds]

@[simp] theorem countAdd_nil : countAdd [] = 0 := rfl

@[simp] theorem countRemove_nil : countRemove [] = 0 := rfl

@[simp] theorem countAdd_take_cons (evs : List Event) :
    countAdd (Event.take :: evs) = countAdd evs := by
  simp [countAdd]

@[simp] theorem countRemove_take_cons (evs : List Event) :
    countRemove (Event.take :: evs) = countRemove evs := by
  simp [countRemove]

@[simp] theorem countAdd_setResult_cons (i h : Nat) (evs : List Event) :
    countAdd (Event.setResult i h :: evs) = countAdd evs := by
  simp [countAdd]

@[simp] theorem countRemove_setResult_cons (i h : Nat) (evs : List Event) :
    countRemove (Event.setResult i h :: evs) = countRemove evs := by
  simp [countRemove]

@[simp] theorem countAdd_setException_cons (i e : Nat) (evs : List Event) :
    countAdd (Event.setException i e :: evs) = countAdd evs := by
  simp [countAdd]

@[simp] theorem countRemove_setException_cons (i e : Nat) (evs : List Event) :
    countRemove (Event.setException i e :: evs) = countRemove evs := by
  simp [countRemove]

@[simp] theorem countAdd_futureCreated_cons (i l : Nat) (evs : List Event) :
    countAdd (Event.futureCreated i l :: evs) = countAdd evs := by
  simp [countAdd]

@[simp] theorem countRemove_futureCreated_cons (i l : Nat) (evs : List Event) :
    countRemove (Event.futureCreated i l :: evs) = countRemove evs := by
  simp [countRemove]

theorem reg_enqueue (l : Option Nat) (s : RecvStream) (evs : List Event) :
    ∃ tail, (enqueue l s evs).events = evs ++ tail ∧
      countRemove tail = 0 ∧
      countAdd tail + listenBit s = listenBit (enqueue l s evs).state := by
  refine ⟨_, enqueue_events l s evs, ?_, ?_⟩
  · rw [countRemove_futureCreated_cons]
    exact (reg_start _).2
  · rw [countAdd_futureCreated_cons, enqueue_state]
    have hb : listenBit { s with
        waiters := s.waiters ++ [⟨s.nextId, l.getD s.constructionLoop, .pending⟩],
        nextId := s.nextId + 1 } = listenBit s := rfl
    have := (reg_start { s with
      waiters := s.waiters ++ [⟨s.nextId, l.getD s.constructionLoop, .pending⟩],
      nextId := s.nextId + 1 }).1
    rw [hb] at this
    exact this

theorem reg_get (l : Option Nat) (src : SourceResult) (s : RecvStream) :
    countAdd (get l src s).events + listenBit s =
      countRemove (get l src s).events + listenBit (get l src s).state := by
  have hc1 := (reg_clear s).1
  have hc2 := (reg_clear s).2
  rcases hw : clearLoop s.waiters with _ | ⟨w, rest⟩
  · cases src with
    | heap hp =>
      rw [get_fast_heap_eq l hp s hw]
      simp only [countAdd_append, countRemove_append, countAdd_take_cons,
        countRemove_take_cons, countAdd_nil, countRemove_nil]
      omega
    | stopped e =>
      rw [get_fast_stopped_eq l e s hw]
      simp only [countAdd_append, countRemove_append, countAdd_take_cons,
        countRemove_take_cons, countAdd_nil, countRemove_nil]
      omega
    | empty =>
      rw [get_fast_empty_eq l s hw]
      obtain ⟨tail, hev, ht0, ht1⟩ := reg_enqueue l (clear_done_waiters s).1
        ((clear_done_waiters s).2 ++ [.take])
      rw [hev]
      simp only [countAdd_append, countRemove_append, countAdd_take_cons,
        countRemove_take_cons, countAdd_nil, countRemove_nil]
      omega
  · rw [get_busy_eq l src s hw]
    obtain ⟨tail, hev, ht0, ht1⟩ := reg_enqueue l (clear_done_waiters s).1
      (clear_done_waiters s).2
    rw [hev]
    simp only [countAdd_append, countRemove_append]
    omega

theorem reg_ready (src : SourceResult) (s : RecvStream) :
    countAdd (ready_callback src s).events + listenBit s =
      countRemove (ready_callback src s).events + listenBit (ready_callback src s).state := by
  have hc1 := (reg_clear s).1
  have hc2 := (reg_clear s).2
  rcases hw : clearLoop s.waiters with _ | ⟨w, rest⟩
  · rw [ready_callback_none src s hw]
    dsimp only
    omega
  · cases src with
    | empty =>
      rw [ready_callback_empty_eq s hw]
      simp only [countAdd_append, countRemove_append, countAdd_take_cons,
        countRemove_take_cons, countAdd_nil, countRemove_nil]
      omega
    | heap hp =>
      rcases rest with _ | ⟨w2, rest2⟩
      · rw [ready_callback_heap_last_eq s hp hw]
        have hb : listenBit { (clear_done_waiters s).1 with waiters := [] } =
            listenBit (clear_done_waiters s).1 := rfl
        have hst1 := (reg_stop { (clear_done_waiters s).1 with waiters := [] }).1
        have hst2 := (reg_stop { (clear_done_waiters s).1 with waiters := [] }).2
        rw [hb] at hst1
        dsimp only at hst1 hst2 ⊢
        simp only [countAdd_append, countRemove_append, countAdd_take_cons,
          countRemove_take_cons, countAdd_setResult_cons, countRemove_setResult_cons]
        omega
      · rw [ready_callback_heap_eq s hp hw (by simp)]
        have hb : listenBit { (clear_done_waiters s).1 with waiters := w2 :: rest2 } =
            listenBit (clear_done_waiters s).1 := rfl
        rw [hb]
        simp only [countAdd_append, countRemove_append, countAdd_take_cons,
          countRemove_take_cons, countAdd_setResult_cons, countRemove_setResult_cons,
          countAdd_nil, countRemove_nil]
        omega
    | stopped e =>
      have hx1 := (setExceptionAll_no_other e (w :: rest)).1
      have hx2 := (setExceptionAll_no_other e (w :: rest)).2.1
      rcases hra : (setExceptionAll e (w :: rest)).2.2 with _ | _
      · rw [ready_callback_stopped_ok_eq s e hw hra]
        have hb : listenBit { (clear_done_waiters s).1 with waiters := [] } =
            listenBit (clear_done_waiters s).1 := rfl
        have hst1 := (reg_stop { (clear_done_waiters s).1 with waiters := [] }).1
        have hst2 := (reg_stop { (clear_done_waiters s).1 with waiters := [] }).2
        rw [hb] at hst1
        dsimp only at hst1 hst2 ⊢
        simp only [countAdd_append, countRemove_append, countAdd_take_cons,
          countRemove_take_cons]
        omega
      · rw [ready_callback_stopped_raised_eq s e hw hra]
        have hb : listenBit { (clear_done_waiters s).1 with
            waiters := (setExceptionAll e (w :: rest)).1 } =
            listenBit (clear_done_waiters s).1 := rfl
        rw [hb]
        simp only [countAdd_append, countRemove_append, countAdd_take_cons,
          countRemove_take_cons]
        omega

theorem reg_step (op : Op) (s : RecvStream) :
    countAdd (step s op).2 + listenBit s =
      countRemove (step s op).2 + listenBit (step s op).1 := by
  cases op with
  | opGet l src => exact reg_get l src s
  | opReady src => exact reg_ready src s
  | opCancel wid =>
    simp [step, countAdd, countRemove, listenBit, cancel]

theorem reg_run (ops : List Op) (s : RecvStream) :
    countAdd (run s ops).2 + listenBit s =
      countRemove (run s ops).2 + listenBit (run s ops).1 := by
  induction ops generalizing s with
  | nil => simp [run, countAdd, countRemove]
  | cons op ops ih =>
    have h1 := reg_step op s
    have h2 := ih (step s op).1
    simp only [run, countAdd_append, countRemove_append]
    omega

theorem goodState_cancel (wid : Nat) {s : RecvStream} (h : GoodState s) :
    GoodState (cancel wid s) := by
  unfold GoodState at h ⊢
  simp [h]

theorem goodState_step (op : Op) {s : RecvStream} (h : GoodState s) :
    GoodState (step s op).1 := by
  cases op with
  | opGet l src => exact goodState_get l src h
  | opReady src => exact goodState_ready src h
  | opCancel wid => exact goodState_cancel wid h

theorem goodState_run (ops : List Op) {s : RecvStream} (h : GoodState s) :
    GoodState (run s ops).1 := by
  induction ops generalizing s with
  | nil => exact h
  | cons op ops ih => exact ih (goodState_step op h)

/- ### Delivered-id bookkeeping for the FIFO invariant -/

@[simp] theorem wids_nil : wids [] = [] := rfl

@[simp] theorem wids_cons (w : Waiter) (ws : List Waiter) :
    wids (w :: ws) = w.id :: wids ws := rfl

@[simp] theorem wids_append (a b : List Waiter) :
    wids (a ++ b) = wids a ++ wids b := by
  simp [wids]

@[simp] theorem deliveredIds_nil : deliveredIds [] = [] := rfl

@[simp] theorem deliveredIds_take_cons (evs : List Event) :
    deliveredIds (Event.take :: evs) = deliveredIds evs := by
  simp [deliveredIds]

@[simp] theorem deliveredIds_setResult_cons (i h : Nat) (evs : List Event) :
    deliveredIds (Event.setResult i h :: evs) = i :: deliveredIds evs := by
  simp [deliveredIds]

@[simp] theorem deliveredIds_setException_cons (i e : Nat) (evs : List Event) :
    deliveredIds (Event.setException i e :: evs) = deliveredIds evs := by
  simp [deliveredIds]

@[simp] theorem deliveredIds_futureCreated_cons (i l : Nat) (evs : List Event) :
    deliveredIds (Event.futureCreated i l :: evs) = deliveredIds evs := by
  simp [deliveredIds]

@[simp] theorem exceptionIds_nil : exceptionIds [] = [] := rfl

@[simp] theorem exceptionIds_take_cons (evs : List Event) :
    exceptionIds (Event.take :: evs) = exceptionIds evs := by
  simp [exceptionIds]

@[simp] theorem exceptionIds_setResult_cons (i h : Nat) (evs : List Event) :
    exceptionIds (Event.setResult i h :: evs) = exceptionIds evs := by
  simp [exceptionIds]

@[simp] theorem exceptionIds_setException_cons (i e : Nat) (evs : List Event) :
    exceptionIds (Event.setException i e :: evs) = i :: exceptionIds evs := by
  simp [exceptionIds]

@[simp] theorem exceptionIds_futureCreated_cons (i l : Nat) (evs : List Event) :
    exceptionIds (Event.futureCreated i l :: evs) = exceptionIds evs := by
  simp [exceptionIds]

theorem deliveredIds_enqueue (l : Option Nat) (s : RecvStream) (evs : List Event) :
    deliveredIds (enqueue l s evs).events = deliveredIds evs := by
  rw [enqueue_events]
  simp [(start_listening_no_other _).2.2.2.2.2.1]

theorem deliveredIds_get (l : Option Nat) (src : SourceResult) (s : RecvStream) :
    deliveredIds (get l src s).events = [] := by
  have hcd := (clear_no_other s).2.2.2.2.2.1
  rcases hw : clearLoop s.waiters with _ | ⟨w, rest⟩
  · cases src with
    | heap hp => rw [get_fast_heap_eq l hp s hw]; simp [hcd]
    | stopped e => rw [get_fast_stopped_eq l e s hw]; simp [hcd]
    | empty => rw [get_fast_empty_eq l s hw, deliveredIds_enqueue]; simp [hcd]
  · rw [get_busy_eq l src s hw, deliveredIds_enqueue, hcd]

theorem streamInv_clear {s : RecvStream} (h : StreamInv s) :
    StreamInv (clear_done_waiters s).1 := by
  obtain ⟨h1, h2⟩ := h
  have hsub : List.Sublist (wids (clearLoop s.waiters)) (wids s.waiters) :=
    (clearLoop_sublist s.waiters).map Waiter.id
  constructor
  · rw [clear_done_waiters_waiters]
    exact h1.sublist hsub
  · intro i hi
    rw [clear_done_waiters_waiters] at hi
    rw [clear_done_waiters_nextId]
    exact h2 i (hsub.subset hi)

theorem traceInv_enqueue (l : Option Nat) {s : RecvStream} {ds : List Nat}
    (evs : List Event) (h : TraceInv s ds) :
    TraceInv (enqueue l s evs).state ds := by
  obtain ⟨⟨hq, hqn⟩, hds, hdn, hdq⟩ := h
  rw [enqueue_state]
  have hw : (start_listening { s with
      waiters := s.waiters ++ [⟨s.nextId, l.getD s.constructionLoop, .pending⟩],
      nextId := s.nextId + 1 }).1.waiters =
      s.waiters ++ [⟨s.nextId, l.getD s.constructionLoop, .pending⟩] := by
    simp
  have hn : (start_listening { s with
      waiters := s.waiters ++ [⟨s.nextId, l.getD s.constructionLoop, .pending⟩],
      nextId := s.nextId + 1 }).1.nextId = s.nextId + 1 := by
    simp
  refine ⟨⟨?_, ?_⟩, hds, ?_, ?_⟩
  · rw [hw]
    simp only [wids_append, wids_cons, wids_nil]
    rw [List.pairwise_append]
    refine ⟨hq, List.pairwise_singleton _ _, ?_⟩
    intro a ha b hb
    rw [List.mem_singleton] at hb
    subst hb
    exact hqn a ha
  · rw [hw, hn]
    intro i hi
    simp only [wids_append, wids_cons, wids_nil, List.mem_append,
      List.mem_singleton] at hi
    rcases hi with hi | hi
    · exact Nat.lt_succ_of_lt (hqn i hi)
    · subst hi
      exact Nat.lt_succ_self _
  · rw [hn]
    intro d hd
    exact Nat.lt_succ_of_lt (hdn d hd)
  · rw [hw]
    intro d hd i hi
    simp only [wids_append, wids_cons, wids_nil, List.mem_append,
      List.mem_singleton] at hi
    rcases hi with hi | hi
    · exact hdq d hd i hi
    · subst hi
      exact hdn d hd

theorem traceInv_clear {s : RecvStream} {ds : List Nat} (h : TraceInv s ds) :
    TraceInv (clear_done_waiters s).1 ds := by
  obtain ⟨hs, hds, hdn, hdq⟩ := h
  have hsub : List.Sublist (wids (clearLoop s.waiters)) (wids s.waiters) :=
    (clearLoop_sublist s.waiters).map Waiter.id
  refine ⟨streamInv_clear hs, hds, ?_, ?_⟩
  · intro d hd
    rw [clear_done_waiters_nextId]
    exact hdn d hd
  · intro d hd i hi
    rw [clear_done_waiters_waiters] at hi
    exact hdq d hd i (hsub.subset hi)

theorem traceInv_get (l : Option Nat) (src : SourceResult) {s : RecvStream}
    {ds : List Nat} (h : TraceInv s ds) :
    TraceInv (get l src s).state (ds ++ deliveredIds (get l src s).events) := by
  rw [deliveredIds_get, List.append_nil]
  have hp := traceInv_clear h
  rcases hw : clearLoop s.waiters with _ | ⟨w, rest⟩
  · cases src with
    | heap hp2 => rw [get_fast_heap_eq l hp2 s hw]; exact hp
    | stopped e => rw [get_fast_stopped_eq l e s hw]; exact hp
    | empty => rw [get_fast_empty_eq l s hw]; exact traceInv_enqueue l _ hp
  · rw [get_busy_eq l src s hw]
    exact traceInv_enqueue l _ hp

theorem traceInv_ready (src : SourceResult) {s : RecvStream} {ds : List Nat}
    (h : TraceInv s ds) :
    TraceInv (ready_callback src s).state
      (ds ++ deliveredIds (ready_callback src s).events) := by
  have hp := traceInv_clear h
  have hpc := hp
  have hcd := (clear_no_other s).2.2.2.2.2.1
  rcases hw : clearLoop s.waiters with _ | ⟨w, rest⟩
  · rw [ready_callback_none src s hw]
    dsimp only
    rw [hcd, List.append_nil]
    exact hpc
  · obtain ⟨⟨hqP, hqnP⟩, hdsP, hdnP, hdqP⟩ := hp
    rw [clear_done_waiters_waiters, hw, wids_cons] at hqP hqnP
    rw [clear_done_waiters_nextId] at hqnP hdnP
    rw [clear_done_waiters_waiters, hw, wids_cons] at hdqP
    have hwid_lt : ∀ i ∈ wids rest, w.id < i := (List.pairwise_cons.mp hqP).1
    have hrestP : (wids rest).Pairwise (· < ·) := (List.pairwise_cons.mp hqP).2
    have hwn : w.id < s.nextId := hqnP w.id (List.mem_cons_self _ _)
    have hrn : ∀ i ∈ wids rest, i < s.nextId := fun i hi =>
      hqnP i (List.mem_cons_of_mem _ hi)
    have hdw : ∀ d ∈ ds, d < w.id := fun d hd =>
      hdqP d hd w.id (List.mem_cons_self _ _)
    have hdr : ∀ d ∈ ds, ∀ i ∈ wids rest, d < i := fun d hd i hi =>
      hdqP d hd i (List.mem_cons_of_mem _ hi)
    cases src with
    | empty =>
      rw [ready_callback_empty_eq s hw]
      dsimp only
      rw [deliveredIds_append, hcd]
      simp only [deliveredIds_take_cons, deliveredIds_nil, List.append_nil]
      exact hpc
    | heap hp2 =>
      have hds2 : (ds ++ [w.id]).Pairwise (· < ·) := by
        rw [List.pairwise_append]
        exact ⟨hdsP, List.pairwise_singleton _ _, fun a ha b hb => by
          rw [List.mem_singleton] at hb
          subst hb
          exact hdw a ha⟩
      have hdn2 : ∀ d ∈ ds ++ [w.id], d < s.nextId := by
        intro d hd
        rcases List.mem_append.mp hd with hd | hd
        · exact hdnP d hd
        · rw [List.mem_singleton] at hd
          subst hd
          exact hwn
      have hdq2 : ∀ d ∈ ds ++ [w.id], ∀ i ∈ wids rest, d < i := by
        intro d hd i hi
        rcases List.mem_append.mp hd with hd | hd
        · exact hdr d hd i hi
        · rw [List.mem_singleton] at hd
          subst hd
          exact hwid_lt i hi
      rcases rest with _ | ⟨w2, rest2⟩
      · rw [ready_callback_heap_last_eq s hp2 hw]
        dsimp only
        rw [deliveredIds_append, hcd]
        simp only [deliveredIds_take_cons, deliveredIds_setResult_cons,
          (stop_listening_no_other _).2.2.2.2.2.1, List.nil_append]
        refine ⟨⟨?_, ?_⟩, hds2, ?_, ?_⟩
        · simp
        · simp
        · intro d hd
          simp only [stop_listening_nextId, clear_done_waiters_nextId]
          exact hdn2 d hd
        · intro d hd i hi
          simp at hi
      · rw [ready_callback_heap_eq s hp2 hw (by simp)]
        dsimp only [TraceInv, StreamInv]
        rw [deliveredIds_append, hcd]
        simp only [deliveredIds_take_cons, deliveredIds_setResult_cons,
          deliveredIds_nil, List.nil_append]
        simp only [clear_done_waiters_nextId]
        exact ⟨⟨hrestP, hrn⟩, hds2, hdn2, hdq2⟩
    | stopped e =>
      have hxd := (setExceptionAll_no_other e (w :: rest)).2.2.2.2.2
      rcases hra : (setExceptionAll e (w :: rest)).2.2 with _ | _
      · rw [ready_callback_stopped_ok_eq s e hw hra]
        dsimp only [TraceInv, StreamInv]
        rw [deliveredIds_append, hcd]
        simp only [deliveredIds_take_cons, deliveredIds_append, hxd,
          (stop_listening_no_other _).2.2.2.2.2.1, List.nil_append, List.append_nil]
        refine ⟨⟨?_, ?_⟩, hdsP, ?_, ?_⟩
        · simp
        · simp
        · intro d hd
          simp only [stop_listening_nextId, clear_done_waiters_nextId]
          exact hdnP d hd
        · intro d hd i hi
          simp at hi
      · rw [ready_callback_stopped_raised_eq s e hw hra]
        dsimp only [TraceInv, StreamInv]
        rw [deliveredIds_append, hcd]
        simp only [deliveredIds_take_cons, hxd, List.nil_append, List.append_nil]
        simp only [clear_done_waiters_nextId, wids_setExceptionAll, wids_cons]
        refine ⟨⟨hqP, hqnP⟩, hdsP, hdnP, ?_⟩
        intro d hd i hi
        rcases List.mem_cons.mp hi with hi | hi
        · subst hi
          exact hdw d hd
        · exact hdr d hd i hi

theorem traceInv_step (op : Op) {s : RecvStream} {ds : List Nat}
    (h : TraceInv s ds) :
    TraceInv (step s op).1 (ds ++ deliveredIds (step s op).2) := by
  cases op with
  | opGet l src => exact traceInv_get l src h
  | opReady src => exact traceInv_ready src h
  | opCancel wid =>
    obtain ⟨⟨hq, hqn⟩, hds, hdn, hdq⟩ := h
    have hstep : (step s (Op.opCancel wid)).1 = cancel wid s := rfl
    have hev : (step s (Op.opCancel wid)).2 = [] := rfl
    rw [hstep, hev, deliveredIds_nil, List.append_nil]
    refine ⟨⟨?_, ?_⟩, hds, ?_, ?_⟩
    · rw [cancel_wids]
      exact hq
    · rw [cancel_wids, cancel_nextId]
      exact hqn
    · rw [cancel_nextId]
      exact hdn
    · rw [cancel_wids]
      exact hdq

theorem traceInv_run (ops : List Op) {s : RecvStream} {ds : List Nat}
    (h : TraceInv s ds) :
    TraceInv (run s ops).1 (ds ++ deliveredIds (run s ops).2) := by
  induction ops generalizing s ds with
  | nil => simpa [run] using h
  | cons op ops ih =>
    have h2 := ih (traceInv_step op h)
    simpa [run, List.append_assoc] using h2

theorem traceInv_init (cl : Nat) : TraceInv (init cl) [] := by
  refine ⟨⟨?_, ?_⟩, ?_, ?_, ?_⟩ <;> simp [init, wids, StreamInv]

/- ### More event-count computation lemmas -/

@[simp] theorem countTake_nil : countTake [] = 0 := rfl

@[simp] theorem countSetResult_nil : countSetResult [] = 0 := rfl

@[simp] theorem countSetException_nil : countSetException [] = 0 := rfl

@[simp] theorem countFutureCreated_nil : countFutureCreated [] = 0 := rfl

@[simp] theorem countTake_take_cons (evs : List Event) :
    countTake (Event.take :: evs) = countTake evs + 1 := by
  simp [countTake]

@[simp] theorem countTake_setResult_cons (i h : Nat) (evs : List Event) :
    countTake (Event.setResult i h :: evs) = countTake evs := by
  simp [countTake]

@[simp] theorem countTake_setException_cons (i e : Nat) (evs : List Event) :
    countTake (Event.setException i e :: evs) = countTake evs := by
  simp [countTake]

@[simp] theorem countTake_futureCreated_cons (i l : Nat) (evs : List Event) :
    countTake (Event.futureCreated i l :: evs) = countTake evs := by
  simp [countTake]

@[simp] theorem countSetResult_take_cons (evs : List Event) :
    countSetResult (Event.take :: evs) = countSetResult evs := by
  simp [countSetResult]

@[simp] theorem countSetResult_setResult_cons (i h : Nat) (evs : List Event) :
    countSetResult (Event.setResult i h :: evs) = countSetResult evs + 1 := by
  simp [countSetResult]

@[simp] theorem countSetResult_setException_cons (i e : Nat) (evs : List Event) :
    countSetResult (Event.setException i e :: evs) = countSetResult evs := by
  simp [countSetResult]

@[simp] theorem countSetResult_futureCreated_cons (i l : Nat) (evs : List Event) :
    countSetResult (Event.futureCreated i l :: evs) = countSetResult evs := by
  simp [countSetResult]

@[simp] theorem countSetException_take_cons (evs : List Event) :
    countSetException (Event.take :: evs) = countSetException evs := by
  simp [countSetException]

@[simp] theorem countSetException_setResult_cons (i h : Nat) (evs : List Event) :
    countSetException (Event.setResult i h :: evs) = countSetException evs := by
  simp [countSetException]

@[simp] theorem countSetException_setException_cons (i e : Nat) (evs : List Event) :
    countSetException (Event.setException i e :: evs) = countSetException evs + 1 := by
  simp [countSetException]

@[simp] theorem countSetException_futureCreated_cons (i l : Nat) (evs : List Event) :
    countSetException (Event.futureCreated i l :: evs) = countSetException evs := by
  simp [countSetException]

@[simp] theorem countFutureCreated_take_cons (evs : List Event) :
    countFutureCreated (Event.take :: evs) = countFutureCreated evs := by
  simp [countFutureCreated]

@[simp] theorem countFutureCreated_setResult_cons (i h : Nat) (evs : List Event) :
    countFutureCreated (Event.setResult i h :: evs) = countFutureCreated evs := by
  simp [countFutureCreated]

@[simp] theorem countFutureCreated_setException_cons (i e : Nat) (evs : List Event) :
    countFutureCreated (Event.setException i e :: evs) = countFutureCreated evs := by
  simp [countFutureCreated]

@[simp] theorem countFutureCreated_futureCreated_cons (i l : Nat) (evs : List Event) :
    countFutureCreated (Event.futureCreated i l :: evs) = countFutureCreated evs + 1 := by
  simp [countFutureCreated]

/- ### Purge idempotence and the dispatch helper -/

theorem clear_done_waiters_noop (X : RecvStream)
    (hw : clearLoop X.waiters = X.waiters)
    (hl : X.waiters = [] → X.listening = false) :
    clear_done_waiters X = (X, []) := by
  unfold clear_done_waiters stop_listening
  dsimp only
  rw [hw]
  by_cases hc : X.waiters = []
  · rw [if_pos (by simp [hc]), if_neg (by simp [hl hc])]
  · rw [if_neg (by simpa [List.isEmpty_iff] using hc)]

theorem clear_done_waiters_idem (s : RecvStream) :
    clear_done_waiters (clear_done_waiters s).1 = ((clear_done_waiters s).1, []) :=
  clear_done_waiters_noop _
    (by rw [clear_done_waiters_waiters]; exact clearLoop_idem _)
    (fun hc => clear_done_waiters_listening_of_nil s
      (by rwa [clear_done_waiters_waiters] at hc))

theorem ready_heap_dispatch {s : RecvStream} {w : Waiter} {rest : List Waiter}
    (hp : Nat) (hw : clearLoop s.waiters = w :: rest) :
    (ready_callback (.heap hp) s).state.waiters = rest ∧
      deliveredIds (ready_callback (.heap hp) s).events = [w.id] := by
  have hcd := (clear_no_other s).2.2.2.2.2.1
  rcases rest with _ | ⟨w2, rest2⟩
  · rw [ready_callback_heap_last_eq s hp hw]
    refine ⟨by simp, ?_⟩
    dsimp only
    rw [deliveredIds_append, hcd]
    simp [(stop_listening_no_other _).2.2.2.2.2.1]
  · rw [ready_callback_heap_eq s hp hw (by simp)]
    refine ⟨rfl, ?_⟩
    dsimp only
    rw [deliveredIds_append, hcd]
    simp

theorem exceptionIds_map_setException (e : Nat) (ws : List Waiter) :
    exceptionIds (ws.map fun w => .setException w.id e) = wids ws := by
  induction ws with
  | nil => rfl
  | cons w ws ih => simp [ih]

/- ### The purge runs first in both entry points -/

theorem ready_purge_first (src : SourceResult) (s : RecvStream) :
    (ready_callback src s).state = (ready_callback src (clear_done_waiters s).1).state ∧
      (ready_callback src s).events =
        (clear_done_waiters s).2 ++ (ready_callback src (clear_done_waiters s).1).events ∧
      (ready_callback src s).raised =
        (ready_callback src (clear_done_waiters s).1).raised := by
  unfold ready_callback
  rw [clear_done_waiters_idem]
  dsimp only
  simp

theorem get_purge_first (l : Option Nat) (src : SourceResult) (s : RecvStream) :
    (get l src s).state = (get l src (clear_done_waiters s).1).state ∧
      (get l src s).events =
        (clear_done_waiters s).2 ++ (get l src (clear_done_waiters s).1).events ∧
      (get l src s).result = (get l src (clear_done_waiters s).1).result := by
  unfold get
  rw [clear_done_waiters_idem]
  dsimp only
  split
  · cases src <;> simp [enqueue_events, enqueue_state, enqueue_result]
  · simp [enqueue_events, enqueue_state, enqueue_result]

/- ### Which event loop the bridge talks to -/

theorem setExceptionAll_no_reader (e : Nat) (ws : List Waiter) (lp : Nat) :
    Event.addReader lp ∉ (setExceptionAll e ws).2.1 ∧
      Event.removeReader lp ∉ (setExceptionAll e ws).2.1 := by
  induction ws with
  | nil => simp [setExceptionAll]
  | cons w ws ih =>
    by_cases h : w.done <;> simp_all [setExceptionAll, h]

theorem clear_reader_events (s : RecvStream) (lp : Nat)
    (h : Event.addReader lp ∈ (clear_done_waiters s).2 ∨
      Event.removeReader lp ∈ (clear_done_waiters s).2) :
    lp = s.constructionLoop := by
  rcases clear_done_waiters_events s with hE | hE <;> simp_all

theorem stop_reader_events (s : RecvStream) (lp : Nat)
    (h : Event.addReader lp ∈ (stop_listening s).2 ∨
      Event.removeReader lp ∈ (stop_listening s).2) :
    lp = s.constructionLoop := by
  rcases stop_listening_events s with hE | hE <;> simp_all

theorem enqueue_reader_events (l : Option Nat) (s : RecvStream) (evs : List Event)
    (lp : Nat)
    (hmem : Event.addReader lp ∈ (enqueue l s evs).events ∨
      Event.removeReader lp ∈ (enqueue l s evs).events) :
    (Event.addReader lp ∈ evs ∨ Event.removeReader lp ∈ evs) ∨
      lp = s.constructionLoop := by
  rw [enqueue_events] at hmem
  rcases start_listening_events { s with
    waiters := s.waiters ++ [⟨s.nextId, l.getD s.constructionLoop, .pending⟩],
    nextId := s.nextId + 1 } with hS | hS
  · simp_all
  · simp_all
    tauto

theorem get_reader_events_loop (l : Option Nat) (src : SourceResult)
    (s : RecvStream) (lp : Nat)
    (hmem : Event.addReader lp ∈ (get l src s).events ∨
      Event.removeReader lp ∈ (get l src s).events) :
    lp = s.constructionLoop := by
  rcases hw : clearLoop s.waiters with _ | ⟨w, rest⟩
  · cases src with
    | heap hp =>
      rw [get_fast_heap_eq l hp s hw] at hmem
      dsimp only at hmem
      simp only [List.mem_append, List.mem_singleton] at hmem
      apply clear_reader_events s lp
      rcases hmem with (h | h) | (h | h) <;> simp_all
    | stopped e =>
      rw [get_fast_stopped_eq l e s hw] at hmem
      dsimp only at hmem
      simp only [List.mem_append, List.mem_singleton] at hmem
      apply clear_reader_events s lp
      rcases hmem with (h | h) | (h | h) <;> simp_all
    | empty =>
      rw [get_fast_empty_eq l s hw] at hmem
      rcases enqueue_reader_events _ _ _ _ hmem with h | h
      · simp only [List.mem_append, List.mem_singleton] at h
        apply clear_reader_events s lp
        rcases h with (h | h) | (h | h) <;> simp_all
      · rwa [clear_done_waiters_constructionLoop] at h
  · rw [get_busy_eq l src s hw] at hmem
    rcases enqueue_reader_events _ _ _ _ hmem with h | h
    · exact clear_reader_events s lp h
    · rwa [clear_done_waiters_constructionLoop] at h

theorem ready_reader_events_loop (src : SourceResult) (s : RecvStream) (lp : Nat)
    (hmem : Event.addReader lp ∈ (ready_callback src s).events ∨
      Event.removeReader lp ∈ (ready_callback src s).events) :
    lp = s.constructionLoop := by
  rcases hw : clearLoop s.waiters with _ | ⟨w, rest⟩
  · rw [ready_callback_none src s hw] at hmem
    exact clear_reader_events s lp hmem
  · cases src with
    | empty =>
      rw [ready_callback_empty_eq s hw] at hmem
      dsimp only at hmem
      simp only [List.mem_append, List.mem_singleton] at hmem
      apply clear_reader_events s lp
      rcases hmem with (h | h) | (h | h) <;> simp_all
    | heap hp =>
      rcases rest with _ | ⟨w2, rest2⟩
      · rw [ready_callback_heap_last_eq s hp hw] at hmem
        dsimp only at hmem
        simp only [List.mem_append, List.mem_cons] at hmem
        rcases hmem with (h | h | h | h) | (h | h | h | h)
        · exact clear_reader_events s lp (Or.inl h)
        · simp at h
        · simp at h
        · have := stop_reader_events _ lp (Or.inl h)
          simpa using this
        · exact clear_reader_events s lp (Or.inr h)
        · simp at h
        · simp at h
        · have := stop_reader_events _ lp (Or.inr h)
          simpa using this
      · rw [ready_callback_heap_eq s hp hw (by simp)] at hmem
        dsimp only at hmem
        simp only [List.mem_append, List.mem_cons, List.mem_singleton] at hmem
        apply clear_reader_events s lp
        rcases hmem with (h | h | h) | (h | h | h) <;> simp_all
    | stopped e =>
      have hnr := setExceptionAll_no_reader e (w :: rest) lp
      rcases hra : (setExceptionAll e (w :: rest)).2.2 with _ | _
      · rw [ready_callback_stopped_ok_eq s e hw hra] at hmem
        dsimp only at hmem
        simp only [List.mem_append, List.mem_cons] at hmem
        rcases hmem with (h | h | h | h) | (h | h | h | h)
        · exact clear_reader_events s lp (Or.inl h)
        · simp at h
        · exact absurd h hnr.1
        · have := stop_reader_events _ lp (Or.inl h)
          simpa using this
        · exact clear_reader_events s lp (Or.inr h)
        · simp at h
        · exact absurd h hnr.2
        · have := stop_reader_events _ lp (Or.inr h)
          simpa using this
      · rw [ready_callback_stopped_raised_eq s e hw hra] at hmem
        dsimp only at hmem
        simp only [List.mem_append, List.mem_cons] at hmem
        rcases hmem with (h | h | h) | (h | h | h)
        · exact clear_reader_events s lp (Or.inl h)
        · simp at h
        · exact absurd h hnr.1
        · exact clear_reader_events s lp (Or.inr h)
        · simp at h
        · exact absurd h hnr.2

theorem get_state_constructionLoop (l : Option Nat) (src : SourceResult)
    (s : RecvStream) :
    (get l src s).state.constructionLoop = s.constructionLoop := by
  rcases hw : clearLoop s.waiters with _ | ⟨w, rest⟩
  · cases src with
    | heap hp => rw [get_fast_heap_eq l hp s hw]; simp
    | stopped e => rw [get_fast_stopped_eq l e s hw]; simp
    | empty => rw [get_fast_empty_eq l s hw, enqueue_state]; simp
  · rw [get_busy_eq l src s hw, enqueue_state]; simp

theorem ready_state_constructionLoop (src : SourceResult) (s : RecvStream) :
    (ready_callback src s).state.constructionLoop = s.constructionLoop := by
  rcases hw : clearLoop s.waiters with _ | ⟨w, rest⟩
  · rw [ready_callback_none src s hw]; simp
  · cases src with
    | empty => rw [ready_callback_empty_eq s hw]; simp
    | heap hp =>
      rcases rest with _ | ⟨w2, rest2⟩
      · rw [ready_callback_heap_last_eq s hp hw]; simp
      · rw [ready_callback_heap_eq s hp hw (by simp)]; simp
    | stopped e =>
      rcases hra : (setExceptionAll e (w :: rest)).2.2 with _ | _
      · rw [ready_callback_stopped_ok_eq s e hw hra]; simp
      · rw [ready_callback_stopped_raised_eq s e hw hra]; simp

theorem step_constructionLoop (op : Op) (s : RecvStream) :
    (step s op).1.constructionLoop = s.constructionLoop := by
  cases op with
  | opGet l src => exact get_state_constructionLoop l src s
  | opReady src => exact ready_state_constructionLoop src s
  | opCancel wid => rfl

theorem step_reader_events_loop (op : Op) (s : RecvStream) (lp : Nat)
    (hmem : Event.addReader lp ∈ (step s op).2 ∨
      Event.removeReader lp ∈ (step s op).2) :
    lp = s.constructionLoop := by
  cases op with
  | opGet l src => exact get_reader_events_loop l src s lp hmem
  | opReady src => exact ready_reader_events_loop src s lp hmem
  | opCancel wid => simp [step] at hmem

theorem run_reader_events_loop (ops : List Op) :
    ∀ (s : RecvStream) (lp : Nat),
      (Event.addReader lp ∈ (run s ops).2 ∨
        Event.removeReader lp ∈ (run s ops).2) →
      lp = s.constructionLoop := by
  induction ops with
  | nil =>
    intro s lp h
    simp [run] at h
  | cons op ops ih =>
    intro s lp h
    rw [run] at h
    dsimp only at h
    simp only [List.mem_append] at h
    rcases h with (h | h) | (h | h)
    · exact step_reader_events_loop op s lp (Or.inl h)
    · have := ih (step s op).1 lp (Or.inl h)
      rwa [step_constructionLoop] at this
    · exact step_reader_events_loop op s lp (Or.inr h)
    · have := ih (step s op).1 lp (Or.inr h)
      rwa [step_constructionLoop] at this

theorem start_listening_of_listening (s : RecvStream) (h : s.listening = true) :
    start_listening s = (s, []) := by
  rw [start_listening, if_pos h]

theorem stop_listening_of_not_listening (s : RecvStream) (h : s.listening = false) :
    stop_listening s = (s, []) := by
  rw [stop_listening, if_neg (by simp [h])]

/- ### Claim theorems -/

/-- C1: over every sequence of `get` calls, dispatch callbacks and
cancellations, the waiter ids fulfilled with a heap form a strictly
increasing sequence of creation-order ids — heaps go out in FIFO request
order and no waiter ever receives two heaps; and a dispatch that obtains a
heap pops exactly the oldest live (non-settled) waiter: everything in front
of it in the queue was already settled, it is removed, and it alone gets a
`set_result`. -/
theorem fifo_delivery :
    (∀ (cl : Nat) (ops : List Op),
        (deliveredIds (run (init cl) ops).2).Pairwise (· < ·)) ∧
    (∀ (s : RecvStream) (hp : Nat) (w : Waiter) (rest : List Waiter),
        clearLoop s.waiters = w :: rest →
          w.done = false ∧
          s.waiters = s.waiters.takeWhile Waiter.done ++ w :: rest ∧
          (ready_callback (.heap hp) s).state.waiters = rest ∧
          deliveredIds (ready_callback (.heap hp) s).events = [w.id]) := by
  constructor
  · intro cl ops
    have h := traceInv_run ops (traceInv_init cl)
    simpa using h.2.1
  · intro s hp w rest hw
    refine ⟨clearLoop_head_not_done hw, ?_,
      (ready_heap_dispatch hp hw).1, (ready_heap_dispatch hp hw).2⟩
    have h := clearLoop_decomp s.waiters
    rwa [hw] at h

/-- C1 witness: with two pending waiters 0 and 1 queued, a dispatch with a
heap fulfills exactly waiter 0 and leaves waiter 1 queued. -/
theorem fifo_delivery_witness :
    Waiter.done ⟨0, 0, .pending⟩ = false ∧
    ([⟨0, 0, .pending⟩, ⟨1, 0, .pending⟩] : List Waiter) =
      List.takeWhile Waiter.done [⟨0, 0, .pending⟩, ⟨1, 0, .pending⟩] ++
        ⟨0, 0, .pending⟩ :: [⟨1, 0, .pending⟩] ∧
    (ready_callback (.heap 5)
      ⟨0, [⟨0, 0, .pending⟩, ⟨1, 0, .pending⟩], true, 2⟩).state.waiters =
      [⟨1, 0, .pending⟩] ∧
    deliveredIds (ready_callback (.heap 5)
      ⟨0, [⟨0, 0, .pending⟩, ⟨1, 0, .pending⟩], true, 2⟩).events = [0] :=
  fifo_delivery.2 ⟨0, [⟨0, 0, .pending⟩, ⟨1, 0, .pending⟩], true, 2⟩ 5
    ⟨0, 0, .pending⟩ [⟨1, 0, .pending⟩] (by decide)

/-- C2 counterexample: the state with queue [pending 0, cancelled 1] is
reachable (two `get` calls, then the consumer cancels the second), and a
dispatch observing terminal stop then raises `InvalidStateError` on the
cancelled waiter: the callback aborts, the queue is NOT cleared and the
listener is NOT deactivated — contrary to the claim that every remaining
waiter, including a cancelled one behind a live one, is fulfilled with the
stop error, the queue emptied and the listener deactivated. -/
theorem stop_fanout_counterexample :
    (run (init 0) [.opGet none .empty, .opGet none .empty, .opCancel 1]).1 =
      ⟨0, [⟨0, 0, .pending⟩, ⟨1, 0, .cancelled⟩], true, 2⟩ ∧
    (ready_callback (.stopped 7)
      ⟨0, [⟨0, 0, .pending⟩, ⟨1, 0, .cancelled⟩], true, 2⟩).raised = true ∧
    (ready_callback (.stopped 7)
      ⟨0, [⟨0, 0, .pending⟩, ⟨1, 0, .cancelled⟩], true, 2⟩).state.waiters =
      [⟨0, 0, .errorResult 7⟩, ⟨1, 0, .cancelled⟩] ∧
    (ready_callback (.stopped 7)
      ⟨0, [⟨0, 0, .pending⟩, ⟨1, 0, .cancelled⟩], true, 2⟩).state.listening = true := by
  decide

/-- C2 (amended): when the dispatch callback observes terminal stop with at
least one waiter after the purge and no already-settled waiter sits in the
queue, every remaining waiter receives the stop error in queue order, the
queue is cleared, the listener is deactivated and nothing is raised.  (If an
already-settled waiter sits behind a live one, `set_exception` raises on it
instead — see the counterexample.) -/
theorem stop_fanout (s : RecvStream) (e : Nat) (w : Waiter) (rest : List Waiter)
    (hw : clearLoop s.waiters = w :: rest)
    (hl : ∀ x ∈ clearLoop s.waiters, x.done = false) :
    (ready_callback (.stopped e) s).state.waiters = [] ∧
    (ready_callback (.stopped e) s).state.listening = false ∧
    (ready_callback (.stopped e) s).raised = false ∧
    exceptionIds (ready_callback (.stopped e) s).events =
      wids (clearLoop s.waiters) := by
  rw [hw] at hl
  have hall := setExceptionAll_all_live e (w :: rest) hl
  have hra : (setExceptionAll e (w :: rest)).2.2 = false := by rw [hall]
  rw [ready_callback_stopped_ok_eq s e hw hra]
  refine ⟨by simp, by simp, rfl, ?_⟩
  dsimp only
  rw [hw, exceptionIds_append, (clear_no_other s).2.2.2.2.2.2, List.nil_append,
    exceptionIds_take_cons, exceptionIds_append,
    show (setExceptionAll e (w :: rest)).2.1 =
      (w :: rest).map (fun x => .setException x.id e) from by rw [hall],
    exceptionIds_map_setException, (stop_listening_no_other _).2.2.2.2.2.2,
    List.append_nil]

/-- C2 witness: three pending waiters all resolve with the stop error in
queue order, the queue is empty afterward and the listener is deactivated. -/
theorem stop_fanout_witness :
    (ready_callback (.stopped 9)
      ⟨0, [⟨0, 0, .pending⟩, ⟨1, 0, .pending⟩, ⟨2, 0, .pending⟩], true, 3⟩).state.waiters = [] ∧
    (ready_callback (.stopped 9)
      ⟨0, [⟨0, 0, .pending⟩, ⟨1, 0, .pending⟩, ⟨2, 0, .pending⟩], true, 3⟩).state.listening = false ∧
    (ready_callback (.stopped 9)
      ⟨0, [⟨0, 0, .pending⟩, ⟨1, 0, .pending⟩, ⟨2, 0, .pending⟩], true, 3⟩).raised = false ∧
    exceptionIds (ready_callback (.stopped 9)
      ⟨0, [⟨0, 0, .pending⟩, ⟨1, 0, .pending⟩, ⟨2, 0, .pending⟩], true, 3⟩).events =
      wids (clearLoop [⟨0, 0, .pending⟩, ⟨1, 0, .pending⟩, ⟨2, 0, .pending⟩]) :=
  stop_fanout ⟨0, [⟨0, 0, .pending⟩, ⟨1, 0, .pending⟩, ⟨2, 0, .pending⟩], true, 3⟩ 9
    ⟨0, 0, .pending⟩ [⟨1, 0, .pending⟩, ⟨2, 0, .pending⟩] (by decide) (by decide)

/-- C3 counterexample: after the reachable sequence get, get, cancel the
second waiter, dispatch a heap (delivered to the first waiter), the bridge
is left listening with a queue containing only the cancelled waiter — the
listening flag is true while no live (non-cancelled) waiter exists,
refuting the claimed iff. -/
theorem listener_toggle_counterexample :
    (run (init 0)
      [.opGet none .empty, .opGet none .empty, .opCancel 1,
        .opReady (.heap 5)]).1.listening = true ∧
    (∀ w ∈ (run (init 0)
      [.opGet none .empty, .opGet none .empty, .opCancel 1,
        .opReady (.heap 5)]).1.waiters, w.done = true) ∧
    (run (init 0)
      [.opGet none .empty, .opGet none .empty, .opCancel 1,
        .opReady (.heap 5)]).1.waiters ≠ [] := by
  decide

/-- C3 (amended): after any sequence of bridge operations from a fresh
bridge, the listening flag is true if and only if the waiter queue is
non-empty — with no liveness qualifier: a queue holding only settled
(e.g. cancelled) waiters still keeps the listener registered until the next
purge. -/
theorem listener_iff_nonempty (cl : Nat) (ops : List Op) :
    (run (init cl) ops).1.listening = true ↔
      (run (init cl) ops).1.waiters ≠ [] := by
  have h := goodState_run ops (goodState_init cl)
  unfold GoodState at h
  rw [h]
  cases hw : (run (init cl) ops).1.waiters <;> simp

/-- C4: when the purged queue is empty and the non-blocking take yields a
heap, `get` returns that heap directly: no future is created, no reader
registration is issued, the caller is not suspended, and the queue stays
empty (the listener ends deactivated). -/
theorem fast_path (l : Option Nat) (hp : Nat) (s : RecvStream)
    (h : clearLoop s.waiters = []) :
    (get l (.heap hp) s).result = .ret hp ∧
    countFutureCreated (get l (.heap hp) s).events = 0 ∧
    countAdd (get l (.heap hp) s).events = 0 ∧
    (get l (.heap hp) s).state.waiters = [] ∧
    (get l (.heap hp) s).state.listening = false := by
  rw [get_fast_heap_eq l hp s h]
  refine ⟨rfl, ?_, ?_, by simp [h], clear_done_waiters_listening_of_nil s h⟩
  · dsimp only
    simp [(clear_no_other s).2.2.2.2.1]
  · dsimp only
    simp [(clear_no_other s).1]

/-- C4 witness: on a fresh bridge with a heap available, `get` returns it
immediately with no future creation and no reader registration. -/
theorem fast_path_witness :
    (get none (.heap 42) (init 0)).result = .ret 42 ∧
    countFutureCreated (get none (.heap 42) (init 0)).events = 0 ∧
    countAdd (get none (.heap 42) (init 0)).events = 0 ∧
    (get none (.heap 42) (init 0)).state.waiters = [] ∧
    (get none (.heap 42) (init 0)).state.listening = false :=
  fast_path none 42 (init 0) (by decide)

/-- C5: one dispatch-callback invocation performs at most one non-blocking
take and fulfills at most one waiter with a heap, however many heaps are
buffered; and when the purge leaves no live waiter (equivalently an empty
queue, since the purge stops at the first live waiter), the callback
performs no take at all and settles no waiter in either direction. -/
theorem single_drain (src : SourceResult) (s : RecvStream) :
    countTake (ready_callback src s).events ≤ 1 ∧
    countSetResult (ready_callback src s).events ≤ 1 ∧
    (clearLoop s.waiters = [] →
      countTake (ready_callback src s).events = 0 ∧
      countSetResult (ready_callback src s).events = 0 ∧
      countSetException (ready_callback src s).events = 0 ∧
      (ready_callback src s).state = (clear_done_waiters s).1) := by
  have hcT := (clear_no_other s).2.1
  have hcR := (clear_no_other s).2.2.1
  have hcE := (clear_no_other s).2.2.2.1
  rcases hw : clearLoop s.waiters with _ | ⟨w, rest⟩
  · rw [ready_callback_none src s hw]
    dsimp only
    exact ⟨by simp [hcT], by simp [hcR],
      fun _ => ⟨by simp [hcT], by simp [hcR], by simp [hcE], rfl⟩⟩
  · refine ⟨?_, ?_, fun hpre => absurd hpre (List.cons_ne_nil w rest)⟩ <;>
    · cases src with
      | empty =>
        rw [ready_callback_empty_eq s hw]
        dsimp only
        simp [hcT, hcR]
      | heap hp =>
        rcases rest with _ | ⟨w2, rest2⟩
        · rw [ready_callback_heap_last_eq s hp hw]
          dsimp only
          simp [hcT, hcR, (stop_listening_no_other _).2.1,
            (stop_listening_no_other _).2.2.1]
        · rw [ready_callback_heap_eq s hp hw (by simp)]
          dsimp only
          simp [hcT, hcR]
      | stopped e =>
        have hxT := (setExceptionAll_no_other e (w :: rest)).2.2.1
        have hxR := (setExceptionAll_no_other e (w :: rest)).2.2.2.1
        rcases hra : (setExceptionAll e (w :: rest)).2.2 with _ | _
        · rw [ready_callback_stopped_ok_eq s e hw hra]
          dsimp only
          simp [hcT, hcR, hxT, hxR, (stop_listening_no_other _).2.1,
            (stop_listening_no_other _).2.2.1]
        · rw [ready_callback_stopped_raised_eq s e hw hra]
          dsimp only
          simp [hcT, hcR, hxT, hxR]

/-- C5 witness: a dispatch on a bridge whose queue purges to empty performs
no take and settles nothing, and a dispatch with a live waiter performs
exactly one take. -/
theorem single_drain_witness :
    clearLoop ([] : List Waiter) = [] ∧
    countTake (ready_callback (.heap 5) (init 0)).events = 0 ∧
    countSetResult (ready_callback (.heap 5) (init 0)).events = 0 ∧
    countSetException (ready_callback (.heap 5) (init 0)).events = 0 ∧
    (ready_callback (.heap 5) (init 0)).state = (clear_done_waiters (init 0)).1 :=
  ⟨by decide, ((single_drain (.heap 5) (init 0)).2.2 (by decide)).1,
    ((single_drain (.heap 5) (init 0)).2.2 (by decide)).2.1,
    ((single_drain (.heap 5) (init 0)).2.2 (by decide)).2.2.1,
    ((single_drain (.heap 5) (init 0)).2.2 (by decide)).2.2.2⟩

/-- C6: the purge removes exactly the leading run of already-settled waiters
(front of the queue only, order of the survivors preserved), deactivates the
listener when the queue purges to empty, and both `get` and the dispatch
callback factor through the purge as their first action; in the concrete
scenario with queue [A, B cancelled, C] a dispatch with one heap delivers it
to A (one take), and the next dispatch skips B and delivers its single heap
to C without consuming one for B. -/
theorem purge_contract :
    (∀ ws : List Waiter, ws = ws.takeWhile Waiter.done ++ clearLoop ws) ∧
    (∀ ws : List Waiter, ∀ w ∈ ws.takeWhile Waiter.done, w.done = true) ∧
    (∀ s : RecvStream, clearLoop s.waiters = [] →
      (clear_done_waiters s).1.listening = false) ∧
    (∀ (src : SourceResult) (s : RecvStream),
      (ready_callback src s).state =
          (ready_callback src (clear_done_waiters s).1).state ∧
        (ready_callback src s).events =
          (clear_done_waiters s).2 ++
            (ready_callback src (clear_done_waiters s).1).events ∧
        (ready_callback src s).raised =
          (ready_callback src (clear_done_waiters s).1).raised) ∧
    (∀ (l : Option Nat) (src : SourceResult) (s : RecvStream),
      (get l src s).state = (get l src (clear_done_waiters s).1).state ∧
        (get l src s).events =
          (clear_done_waiters s).2 ++ (get l src (clear_done_waiters s).1).events ∧
        (get l src s).result = (get l src (clear_done_waiters s).1).result) ∧
    (deliveredIds (ready_callback (.heap 5)
        ⟨0, [⟨0, 0, .pending⟩, ⟨1, 0, .cancelled⟩, ⟨2, 0, .pending⟩], true, 3⟩).events = [0] ∧
      (ready_callback (.heap 5)
        ⟨0, [⟨0, 0, .pending⟩, ⟨1, 0, .cancelled⟩, ⟨2, 0, .pending⟩], true, 3⟩).state.waiters =
        [⟨1, 0, .cancelled⟩, ⟨2, 0, .pending⟩] ∧
      countTake (ready_callback (.heap 5)
        ⟨0, [⟨0, 0, .pending⟩, ⟨1, 0, .cancelled⟩, ⟨2, 0, .pending⟩], true, 3⟩).events = 1 ∧
      deliveredIds (ready_callback (.heap 6)
        ⟨0, [⟨1, 0, .cancelled⟩, ⟨2, 0, .pending⟩], true, 3⟩).events = [2] ∧
      countTake (ready_callback (.heap 6)
        ⟨0, [⟨1, 0, .cancelled⟩, ⟨2, 0, .pending⟩], true, 3⟩).events = 1 ∧
      (ready_callback (.heap 6)
        ⟨0, [⟨1, 0, .cancelled⟩, ⟨2, 0, .pending⟩], true, 3⟩).state.waiters = []) := by
  refine ⟨clearLoop_decomp, ?_, ?_, ready_purge_first, get_purge_first, by decide⟩
  · intro ws w hw
    exact List.mem_takeWhile_imp hw
  · intro s h
    exact clear_done_waiters_listening_of_nil s h

/-- C6 witness: the decomposition and listener-deactivation clauses applied
to the concrete queue [cancelled 0, pending 1] and to a stream that purges
to empty. -/
theorem purge_contract_witness :
    ([⟨0, 0, .cancelled⟩, ⟨1, 0, .pending⟩] : List Waiter) =
      List.takeWhile Waiter.done [⟨0, 0, .cancelled⟩, ⟨1, 0, .pending⟩] ++
        clearLoop [⟨0, 0, .cancelled⟩, ⟨1, 0, .pending⟩] ∧
    (clear_done_waiters ⟨0, [⟨0, 0, .cancelled⟩], true, 1⟩).1.listening = false :=
  ⟨purge_contract.1 [⟨0, 0, .cancelled⟩, ⟨1, 0, .pending⟩],
    purge_contract.2.2.1 ⟨0, [⟨0, 0, .cancelled⟩], true, 1⟩ (by decide)⟩

/-- C7 counterexample: the claim quantifies over every bridge state reached
after the source reported terminal stop, but not every such state behaves as
claimed.  After three `get` calls, cancellation of the middle waiter and a
stop dispatch, the fan-out aborts on the cancelled waiter
(`InvalidStateError`) and strands the queue as
[errorResult, cancelled, pending]; a subsequent `get` on that reachable
post-stop state purges the two settled waiters, finds the queue still
non-empty, performs no re-check of the source at all (zero takes), enqueues
a fresh waiter and suspends — it does not fail with the Stopped error. -/
theorem get_after_stopped_counterexample :
    (run (init 0) [.opGet none .empty, .opGet none .empty, .opGet none .empty,
      .opCancel 1, .opReady (.stopped 7)]).1 =
      ⟨0, [⟨0, 0, .errorResult 7⟩, ⟨1, 0, .cancelled⟩, ⟨2, 0, .pending⟩], true, 3⟩ ∧
    (get none (.stopped 7)
      ⟨0, [⟨0, 0, .errorResult 7⟩, ⟨1, 0, .cancelled⟩, ⟨2, 0, .pending⟩], true, 3⟩).result =
      .suspended 3 ∧
    countTake (get none (.stopped 7)
      ⟨0, [⟨0, 0, .errorResult 7⟩, ⟨1, 0, .cancelled⟩, ⟨2, 0, .pending⟩], true, 3⟩).events = 0 ∧
    (get none (.stopped 7)
      ⟨0, [⟨0, 0, .errorResult 7⟩, ⟨1, 0, .cancelled⟩, ⟨2, 0, .pending⟩], true, 3⟩).state.listening =
      true := by
  decide

/-- C7 (amended): from any post-stop state whose queued waiters are all
settled — in particular the terminal state the normal stop fan-out leaves
behind, with an empty queue — a `get` while the source is terminally stopped
re-checks the source exactly once, fails by letting `spead2.Stopped` escape
rather than suspending, creates no waiter, registers no reader, and leaves
the bridge unlistening with an empty queue.  (If an aborted stop fan-out
stranded a live waiter in the queue, `get` instead enqueues and suspends
without re-checking — see the counterexample.) -/
theorem get_after_stopped (l : Option Nat) (e : Nat) (s : RecvStream)
    (h : ∀ w ∈ s.waiters, w.done = true) :
    (get l (.stopped e) s).result = .raisedStopped e ∧
    countTake (get l (.stopped e) s).events = 1 ∧
    countFutureCreated (get l (.stopped e) s).events = 0 ∧
    countAdd (get l (.stopped e) s).events = 0 ∧
    (get l (.stopped e) s).state.waiters = [] ∧
    (get l (.stopped e) s).state.listening = false := by
  have hc : clearLoop s.waiters = [] := clearLoop_eq_nil_of_all_done h
  rw [get_fast_stopped_eq l e s hc]
  refine ⟨rfl, ?_, ?_, ?_, by simp [hc],
    clear_done_waiters_listening_of_nil s hc⟩
  · dsimp only
    simp [(clear_no_other s).2.1]
  · dsimp only
    simp [(clear_no_other s).2.2.2.2.1]
  · dsimp only
    simp [(clear_no_other s).1]

/-- C7 witness: a `get` on the post-stop idle bridge fails with the stop
error after a single re-check, with no waiter and no registration. -/
theorem get_after_stopped_witness :
    (get none (.stopped 3) ⟨0, [], false, 5⟩).result = .raisedStopped 3 ∧
    countTake (get none (.stopped 3) ⟨0, [], false, 5⟩).events = 1 ∧
    countFutureCreated (get none (.stopped 3) ⟨0, [], false, 5⟩).events = 0 ∧
    countAdd (get none (.stopped 3) ⟨0, [], false, 5⟩).events = 0 ∧
    (get none (.stopped 3) ⟨0, [], false, 5⟩).state.waiters = [] ∧
    (get none (.stopped 3) ⟨0, [], false, 5⟩).state.listening = false :=
  get_after_stopped none 3 ⟨0, [], false, 5⟩ (by decide)

/-- C8: a dispatch-callback invocation whose take reports `spead2.Empty`
settles no waiter in either direction, raises nothing, leaves the queue
exactly as the purge left it, and keeps the listener in its pre-call state
whenever a live waiter remains. -/
theorem empty_benign (s : RecvStream) :
    countSetResult (ready_callback .empty s).events = 0 ∧
    countSetException (ready_callback .empty s).events = 0 ∧
    (ready_callback .empty s).raised = false ∧
    (ready_callback .empty s).state.waiters = clearLoop s.waiters ∧
    (clearLoop s.waiters ≠ [] →
      (ready_callback .empty s).state.listening = s.listening) := by
  have hcR := (clear_no_other s).2.2.1
  have hcE := (clear_no_other s).2.2.2.1
  rcases hw : clearLoop s.waiters with _ | ⟨w, rest⟩
  · rw [ready_callback_none .empty s hw]
    dsimp only
    exact ⟨by simp [hcR], by simp [hcE], rfl, by simp [hw],
      fun hpre => absurd rfl hpre⟩
  · rw [ready_callback_empty_eq s hw]
    dsimp only
    refine ⟨by simp [hcR], by simp [hcE], rfl, by simp [hw], fun _ => ?_⟩
    exact clear_done_waiters_listening_of_ne_nil s (by rw [hw]; simp)

/-- C8 witness: with one pending waiter, an Empty-yielding dispatch touches
no waiter and the listener stays active. -/
theorem empty_benign_witness :
    countSetResult (ready_callback .empty ⟨0, [⟨0, 0, .pending⟩], true, 1⟩).events = 0 ∧
    countSetException (ready_callback .empty ⟨0, [⟨0, 0, .pending⟩], true, 1⟩).events = 0 ∧
    (ready_callback .empty ⟨0, [⟨0, 0, .pending⟩], true, 1⟩).raised = false ∧
    (ready_callback .empty ⟨0, [⟨0, 0, .pending⟩], true, 1⟩).state.waiters =
      clearLoop [⟨0, 0, .pending⟩] ∧
    (ready_callback .empty ⟨0, [⟨0, 0, .pending⟩], true, 1⟩).state.listening = true :=
  ⟨(empty_benign ⟨0, [⟨0, 0, .pending⟩], true, 1⟩).1,
    (empty_benign ⟨0, [⟨0, 0, .pending⟩], true, 1⟩).2.1,
    (empty_benign ⟨0, [⟨0, 0, .pending⟩], true, 1⟩).2.2.1,
    (empty_benign ⟨0, [⟨0, 0, .pending⟩], true, 1⟩).2.2.2.1,
    (empty_benign ⟨0, [⟨0, 0, .pending⟩], true, 1⟩).2.2.2.2 (by decide)⟩

/-- C9: activating the listener while active and deactivating it while
inactive are observable no-ops (state unchanged, no registration call
issued), activation and deactivation are idempotent, and along any run the
add-reader registrations exceed the remove-reader unregistrations by
exactly the listening bit — so at most one registration ever exists and no
unregistration is ever issued without a matching registration. -/
theorem listener_idempotent :
    (∀ s : RecvStream, s.listening = true → start_listening s = (s, [])) ∧
    (∀ s : RecvStream, s.listening = false → stop_listening s = (s, [])) ∧
    (∀ s : RecvStream,
      start_listening (start_listening s).1 = ((start_listening s).1, [])) ∧
    (∀ s : RecvStream,
      stop_listening (stop_listening s).1 = ((stop_listening s).1, [])) ∧
    (∀ (cl : Nat) (ops : List Op),
      countAdd (run (init cl) ops).2 =
        countRemove (run (init cl) ops).2 + listenBit (run (init cl) ops).1) := by
  refine ⟨start_listening_of_listening, stop_listening_of_not_listening,
    ?_, ?_, ?_⟩
  · intro s
    exact start_listening_of_listening _ (start_listening_listening s)
  · intro s
    exact stop_listening_of_not_listening _ (stop_listening_listening s)
  · intro cl ops
    have h := reg_run ops (init cl)
    have h0 : listenBit (init cl) = 0 := rfl
    omega

/-- C9 witness: activating an already-listening bridge and deactivating an
already-idle one are no-ops. -/
theorem listener_idempotent_witness :
    start_listening ⟨0, [], true, 0⟩ = (⟨0, [], true, 0⟩, []) ∧
    stop_listening ⟨0, [], false, 0⟩ = (⟨0, [], false, 0⟩, []) :=
  ⟨listener_idempotent.1 ⟨0, [], true, 0⟩ rfl,
    listener_idempotent.2.1 ⟨0, [], false, 0⟩ rfl⟩

/-- C10: a `get(loop=L)` that suspends creates its waiter future on L, but
every reader registration or unregistration the bridge ever issues — in that
`get` and across any whole run — uses the construction-time loop, never L. -/
theorem loop_usage :
    (∀ (L : Nat) (src : SourceResult) (s : RecvStream) (wid : Nat),
        (get (some L) src s).result = .suspended wid →
          Event.futureCreated wid L ∈ (get (some L) src s).events) ∧
    (∀ (l : Option Nat) (src : SourceResult) (s : RecvStream) (lp : Nat),
        Event.addReader lp ∈ (get l src s).events → lp = s.constructionLoop) ∧
    (∀ (l : Option Nat) (src : SourceResult) (s : RecvStream) (lp : Nat),
        Event.removeReader lp ∈ (get l src s).events → lp = s.constructionLoop) ∧
    (∀ (cl lp : Nat) (ops : List Op),
        Event.addReader lp ∈ (run (init cl) ops).2 ∨
          Event.removeReader lp ∈ (run (init cl) ops).2 → lp = cl) := by
  refine ⟨?_, ?_, ?_, ?_⟩
  · intro L src s wid hres
    rcases hw : clearLoop s.waiters with _ | ⟨w, rest⟩
    · cases src with
      | heap hp =>
        rw [get_fast_heap_eq _ _ _ hw] at hres
        simp at hres
      | stopped e =>
        rw [get_fast_stopped_eq _ _ _ hw] at hres
        simp at hres
      | empty =>
        rw [get_fast_empty_eq _ _ hw] at hres ⊢
        rw [enqueue_result] at hres
        simp only [GetResult.suspended.injEq] at hres
        subst hres
        rw [enqueue_events]
        simp
    · rw [get_busy_eq _ _ _ hw] at hres ⊢
      rw [enqueue_result] at hres
      simp only [GetResult.suspended.injEq] at hres
      subst hres
      rw [enqueue_events]
      simp
  · intro l src s lp hmem
    exact get_reader_events_loop l src s lp (Or.inl hmem)
  · intro l src s lp hmem
    exact get_reader_events_loop l src s lp (Or.inr hmem)
  · intro cl lp ops hmem
    exact run_reader_events_loop ops (init cl) lp hmem

/-- C10 witness: `get(loop=9)` on a bridge constructed with loop 0 creates
its future on loop 9 while its reader registration goes to loop 0. -/
theorem loop_usage_witness :
    Event.futureCreated 0 9 ∈ (get (some 9) .empty (init 0)).events ∧
    (Event.addReader 0 ∈ (get (some 9) .empty (init 0)).events →
      (0 : Nat) = (init 0).constructionLoop) :=
  ⟨loop_usage.1 9 .empty (init 0) 0 (by decide),
    fun hmem => loop_usage.2.1 (some 9) .empty (init 0) 0 hmem⟩

end Spead2
